import Mathlib

/-!
# Verification of `blob.py` (naturalinteraction/ilovemaps)

Shallow embedding of the single-script pipeline in `src/blob.py`:

1. cluster generation (`cluster_centers`, the per-cluster Gaussian noise loop,
   `np.vstack`),
2. grid building (`units.min/max ± margin`, `np.linspace`, `np.meshgrid`),
3. Gaussian field accumulation and normalization by `field.max()`.

Machine floats are modelled by exact real numbers `ℝ`; the one place where
float semantics matter (division by a zero maximum producing NaN) is modelled
by an `Option ℝ`-valued division, `none` standing for NaN.  Randomness is
modelled by explicit streams of draws: `center k` is the `k`-th draw of
`np.random.uniform(-50, 50, size=(num_clusters, 2))` and `noise k m` the
`m`-th row of the `k`-th cluster's `np.random.normal(scale=5.0, ...)` draw.
-/

noncomputable section

namespace Blob

/-- A 2D point, as one row of a numpy `(·, 2)` array. -/
abbrev Pt : Type := ℝ × ℝ

/-! ## Cluster generator (`blob.py` lines 14–21) -/

/-- `center + np.random.normal(scale=5.0, size=(units_per_cluster, 2))` for
cluster `k`, followed by `units.append(cluster)` over the loop: the list of
per-cluster point lists, cluster-major.  `center k` and `noise k m` are the
random draws consumed from the stream. -/
def genClusters (nc upc : ℕ) (center : ℕ → Pt) (noise : ℕ → ℕ → Pt) :
    List (List Pt) :=
  (List.range nc).map fun k =>
    (List.range upc).map fun m =>
      ((center k).1 + (noise k m).1, (center k).2 + (noise k m).2)

/-- `np.vstack`: concatenates a list of 2-column arrays; raises
`ValueError: need at least one array to concatenate` on an empty list,
modelled by `none`. -/
def vstack : List (List Pt) → Option (List Pt)
  | [] => none
  | ls => some ls.flatten

/-- `units = np.vstack(units)` after the generation loop. -/
def genUnits (nc upc : ℕ) (center : ℕ → Pt) (noise : ℕ → ℕ → Pt) :
    Option (List Pt) :=
  vstack (genClusters nc upc center noise)

/-! ## Grid builder (`blob.py` lines 24–30) -/

/-- `np.min` as a reduction over a 1-D array; numpy raises on an empty array,
here the (never used under the claims' preconditions) empty case returns 0. -/
def listMin : List ℝ → ℝ
  | [] => 0
  | a :: rest => rest.foldl min a

/-- `np.max` as a reduction over a 1-D array; numpy raises on an empty array,
here the (never used under the claims' preconditions) empty case returns 0. -/
def listMax : List ℝ → ℝ
  | [] => 0
  | a :: rest => rest.foldl max a

/-- `margin = 20`. -/
def margin : ℝ := 20

/-- The x column `units[:, 0]`. -/
def xcoords (units : List Pt) : List ℝ := units.map Prod.fst

/-- The y column `units[:, 1]`. -/
def ycoords (units : List Pt) : List ℝ := units.map Prod.snd

/-- `xmin = units.min(axis=0)[0] - margin`. -/
def xmin (units : List Pt) : ℝ := listMin (xcoords units) - margin

/-- `xmax = units.max(axis=0)[0] + margin`. -/
def xmax (units : List Pt) : ℝ := listMax (xcoords units) + margin

/-- `ymin = units.min(axis=0)[1] - margin`. -/
def ymin (units : List Pt) : ℝ := listMin (ycoords units) - margin

/-- `ymax = units.max(axis=0)[1] + margin`. -/
def ymax (units : List Pt) : ℝ := listMax (ycoords units) + margin

/-- `np.linspace(a, b, n)[i]` for `n ≥ 2`: `a + i * (b - a)/(n - 1)`. -/
def linspace (a b : ℝ) (n : ℕ) (i : ℕ) : ℝ :=
  a + (i : ℝ) * ((b - a) / ((n : ℝ) - 1))

/-- `x = np.linspace(xmin, xmax, grid_res)`. -/
def xsamples (units : List Pt) (n : ℕ) (j : ℕ) : ℝ :=
  linspace (xmin units) (xmax units) n j

/-- `y = np.linspace(ymin, ymax, grid_res)`. -/
def ysamples (units : List Pt) (n : ℕ) (i : ℕ) : ℝ :=
  linspace (ymin units) (ymax units) n i

/-- `np.meshgrid(x, y)` first output (default `indexing='xy'`):
`X[i, j] = x[j]`. -/
def meshX (x y : ℕ → ℝ) (i j : ℕ) : ℝ := x j

/-- `np.meshgrid(x, y)` second output (default `indexing='xy'`):
`Y[i, j] = y[i]`. -/
def meshY (x y : ℕ → ℝ) (i j : ℕ) : ℝ := y i

/-- `X[i, j]` of the pipeline's grid. -/
def Xg (units : List Pt) (n : ℕ) (i j : ℕ) : ℝ :=
  meshX (xsamples units n) (ysamples units n) i j

/-- `Y[i, j]` of the pipeline's grid. -/
def Yg (units : List Pt) (n : ℕ) (i j : ℕ) : ℝ :=
  meshY (xsamples units n) (ysamples units n) i j

/-! ## Field evaluator (`blob.py` lines 33–41) -/

/-- One Gaussian contribution at grid coordinates `(px, py)` from unit
`(ux, uy)`: `np.exp(-(dx**2 + dy**2) / (2 * sigma**2))`. -/
def gauss (σ px py ux uy : ℝ) : ℝ :=
  Real.exp (-((px - ux) ^ 2 + (py - uy) ^ 2) / (2 * σ ^ 2))

/-- The accumulation loop `for ux, uy in units: field += np.exp(...)` at grid
cell `(i, j)`, starting from `field = np.zeros_like(X)`. -/
def fieldAcc (σ : ℝ) (units : List Pt) (X Y : ℕ → ℕ → ℝ) (i j : ℕ) : ℝ :=
  units.foldl (fun acc u => acc + gauss σ (X i j) (Y i j) u.1 u.2) 0

/-- The accumulated (pre-normalization) field of the pipeline at cell
`(i, j)`. -/
def field (units : List Pt) (σ : ℝ) (n : ℕ) (i j : ℕ) : ℝ :=
  fieldAcc σ units (Xg units n) (Yg units n) i j

/-- All entries of an `n × n` grid array, row-major, as a flat list
(the order `np.max` reduces over). -/
def gridVals (n : ℕ) (f : ℕ → ℕ → ℝ) : List ℝ :=
  (List.range n).flatMap fun i => (List.range n).map (f i)

/-- `field.max()`. -/
def fieldMax (units : List Pt) (σ : ℝ) (n : ℕ) : ℝ :=
  listMax (gridVals n (field units σ n))

/-- `field /= field.max()` at cell `(i, j)`, in exact real arithmetic. -/
def normField (units : List Pt) (σ : ℝ) (n : ℕ) (i j : ℕ) : ℝ :=
  field units σ n i j / fieldMax units σ n

/-- Float division as numpy performs it in `field /= field.max()`: a zero
divisor does not raise, it produces a non-numeric value (NaN, here `none`). -/
def floatDiv (x y : ℝ) : Option ℝ :=
  if y = 0 then none else some (x / y)

/-- `field /= field.max()` at cell `(i, j)` with numpy float division:
`none` is the NaN that a zero maximum propagates to the render stage. -/
def normFieldF (units : List Pt) (σ : ℝ) (n : ℕ) (i j : ℕ) : Option ℝ :=
  floatDiv (field units σ n i j) (fieldMax units σ n)

/-- The whole computational pipeline as a function of the parameters and the
random draws: the generated units together with the normalized field
(`none` when generation fails).  The renderer consumes exactly this data. -/
def pipeline (nc upc : ℕ) (σ : ℝ) (n : ℕ) (center : ℕ → Pt)
    (noise : ℕ → ℕ → Pt) : Option (List Pt × (ℕ → ℕ → ℝ)) :=
  (genUnits nc upc center noise).map fun us => (us, normField us σ n)


/-! ## Helper lemmas: `foldl max` (the `np.max` reduction) -/

lemma le_foldl_max_init (l : List ℝ) (a : ℝ) : a ≤ l.foldl max a := by
  induction l generalizing a with
  | nil => exact le_rfl
  | cons b l ih => exact le_trans (le_max_left a b) (ih (max a b))

lemma le_foldl_max_of_mem {l : List ℝ} {x : ℝ} (a : ℝ) (h : x ∈ l) :
    x ≤ l.foldl max a := by
  induction l generalizing a with
  | nil => cases h
  | cons b l ih =>
    rcases List.mem_cons.mp h with rfl | hx
    · exact le_trans (le_max_right a x) (le_foldl_max_init l (max a x))
    · exact ih (max a b) hx

lemma foldl_max_eq_or_mem (l : List ℝ) (a : ℝ) :
    l.foldl max a = a ∨ l.foldl max a ∈ l := by
  induction l generalizing a with
  | nil => exact Or.inl rfl
  | cons b l ih =>
    rcases ih (max a b) with h | h
    · rcases max_cases a b with ⟨hm, _⟩ | ⟨hm, _⟩
      · exact Or.inl (by rw [List.foldl_cons, h, hm])
      · exact Or.inr (by rw [List.foldl_cons, h, hm]; exact List.mem_cons_self b l)
    · exact Or.inr (List.mem_cons_of_mem b h)

lemma le_listMax_of_mem {l : List ℝ} {x : ℝ} (h : x ∈ l) : x ≤ listMax l := by
  cases l with
  | nil => cases h
  | cons a l =>
    rcases List.mem_cons.mp h with rfl | hx
    · exact le_foldl_max_init l x
    · exact le_foldl_max_of_mem a hx

lemma listMax_mem {l : List ℝ} (h : l ≠ []) : listMax l ∈ l := by
  cases l with
  | nil => exact absurd rfl h
  | cons a l =>
    rcases foldl_max_eq_or_mem l a with h1 | h1
    · rw [listMax, h1]; exact List.mem_cons_self a l
    · exact List.mem_cons_of_mem a h1

lemma foldl_max_map_div (l : List ℝ) (a c : ℝ) (hc : 0 ≤ c) :
    (l.map (fun x => x / c)).foldl max (a / c) = l.foldl max a / c := by
  induction l generalizing a with
  | nil => rfl
  | cons b l ih =>
    rw [List.map_cons, List.foldl_cons, List.foldl_cons,
      max_div_div_right hc a b, ih (max a b)]

lemma listMax_map_div (l : List ℝ) (c : ℝ) (hc : 0 ≤ c) :
    listMax (l.map (fun x => x / c)) = listMax l / c := by
  cases l with
  | nil => simp [listMax]
  | cons a l => exact foldl_max_map_div l a c hc

/-! ## Helper lemmas: the accumulation loop is a sum -/

lemma foldl_add_eq_sum (l : List Pt) (g : Pt → ℝ) (a : ℝ) :
    l.foldl (fun acc u => acc + g u) a = a + (l.map g).sum := by
  induction l generalizing a with
  | nil => simp
  | cons b l ih => rw [List.foldl_cons, ih (a + g b)]; simp; ring

lemma fieldAcc_eq_sum (σ : ℝ) (units : List Pt) (X Y : ℕ → ℕ → ℝ) (i j : ℕ) :
    fieldAcc σ units X Y i j
      = (units.map fun u => gauss σ (X i j) (Y i j) u.1 u.2).sum := by
  rw [fieldAcc, foldl_add_eq_sum, zero_add]

lemma gauss_pos (σ px py ux uy : ℝ) : 0 < gauss σ px py ux uy :=
  Real.exp_pos _

lemma fieldAcc_pos (σ : ℝ) {units : List Pt} (h : units ≠ [])
    (X Y : ℕ → ℕ → ℝ) (i j : ℕ) : 0 < fieldAcc σ units X Y i j := by
  rw [fieldAcc_eq_sum]
  refine List.sum_pos _ (fun x hx => ?_) (by simpa using h)
  rcases List.mem_map.mp hx with ⟨u, _, rfl⟩
  exact gauss_pos _ _ _ _ _

/-! ## Helper lemmas: the grid value list -/

lemma mem_gridVals (n : ℕ) (f : ℕ → ℕ → ℝ) {i j : ℕ} (hi : i < n)
    (hj : j < n) : f i j ∈ gridVals n f := by
  refine List.mem_flatMap.mpr ⟨i, List.mem_range.mpr hi, ?_⟩
  exact List.mem_map.mpr ⟨j, List.mem_range.mpr hj, rfl⟩

lemma gridVals_ne_nil {n : ℕ} (hn : 0 < n) (f : ℕ → ℕ → ℝ) :
    gridVals n f ≠ [] := by
  intro h
  have : f 0 0 ∈ gridVals n f := mem_gridVals n f hn hn
  rw [h] at this
  cases this

lemma gridVals_shape (n : ℕ) (f : ℕ → ℕ → ℝ) {x : ℝ}
    (hx : x ∈ gridVals n f) : ∃ i j, i < n ∧ j < n ∧ x = f i j := by
  rcases List.mem_flatMap.mp hx with ⟨i, hi, hx⟩
  rcases List.mem_map.mp hx with ⟨j, hj, rfl⟩
  exact ⟨i, j, List.mem_range.mp hi, List.mem_range.mp hj, rfl⟩

lemma fieldMax_pos {units : List Pt} (h : units ≠ []) (σ : ℝ) {n : ℕ}
    (hn : 0 < n) : 0 < fieldMax units σ n := by
  rcases gridVals_shape n (field units σ n)
      (listMax_mem (gridVals_ne_nil hn (field units σ n))) with ⟨i, j, _, _, heq⟩
  rw [fieldMax, heq]
  exact fieldAcc_pos σ h _ _ i j

lemma field_le_fieldMax (units : List Pt) (σ : ℝ) {n : ℕ} {i j : ℕ}
    (hi : i < n) (hj : j < n) : field units σ n i j ≤ fieldMax units σ n :=
  le_listMax_of_mem (mem_gridVals n (field units σ n) hi hj)

/-! ## Helper lemmas: the cluster generator -/

lemma flatten_getElem_uniform {α : Type} (upc : ℕ) :
    ∀ (L : List (List α)) (k m : ℕ), (∀ c ∈ L, c.length = upc) →
      k < L.length → m < upc →
      L.flatten[k * upc + m]? = Option.bind L[k]? (fun row => row[m]?) := by
  intro L
  induction L with
  | nil => intro k m _ hk _; cases (Nat.not_lt_zero k) hk
  | cons row rest ih =>
    intro k m hlen hk hm
    cases k with
    | zero =>
      have hrow : row.length = upc := hlen row (List.mem_cons_self row rest)
      have hmr : m < row.length := hrow ▸ hm
      rw [List.flatten_cons, Nat.zero_mul, Nat.zero_add,
        List.getElem?_append_left hmr]
      simp
    | succ k =>
      have hrow : row.length = upc := hlen row (List.mem_cons_self row rest)
      have hidx : (k + 1) * upc + m = row.length + (k * upc + m) := by
        rw [hrow]; ring
      rw [List.flatten_cons, hidx, List.getElem?_append_right (Nat.le_add_right _ _),
        Nat.add_sub_cancel_left]
      have := ih k m (fun d hd => hlen d (List.mem_cons_of_mem row hd))
        (Nat.lt_of_succ_lt_succ hk) hm
      rw [this]
      simp

lemma genClusters_length (nc upc : ℕ) (center : ℕ → Pt) (noise : ℕ → ℕ → Pt) :
    (genClusters nc upc center noise).length = nc := by
  simp [genClusters]

lemma genClusters_mem_length {nc upc : ℕ} {center : ℕ → Pt}
    {noise : ℕ → ℕ → Pt} {c : List Pt}
    (hc : c ∈ genClusters nc upc center noise) : c.length = upc := by
  rcases List.mem_map.mp hc with ⟨k, _, rfl⟩
  simp

lemma genClusters_flatten_length (nc upc : ℕ) (center : ℕ → Pt)
    (noise : ℕ → ℕ → Pt) :
    (genClusters nc upc center noise).flatten.length = nc * upc := by
  rw [genClusters, List.length_flatten, List.map_map]
  have h : (List.length ∘ fun k => (List.range upc).map fun m =>
      ((center k).1 + (noise k m).1, (center k).2 + (noise k m).2))
        = fun _ : ℕ => upc := by
    funext k; simp
  rw [h, List.map_const', List.sum_replicate]
  simp [Nat.mul_comm]

lemma genClusters_getElem {nc upc : ℕ} (center : ℕ → Pt) (noise : ℕ → ℕ → Pt)
    {k : ℕ} (hk : k < nc) :
    (genClusters nc upc center noise)[k]?
      = some ((List.range upc).map fun m =>
          ((center k).1 + (noise k m).1, (center k).2 + (noise k m).2)) := by
  rw [genClusters, List.getElem?_map, List.getElem?_range hk]
  rfl

lemma genClusters_flatten_getElem {nc upc : ℕ} (center : ℕ → Pt)
    (noise : ℕ → ℕ → Pt) {k m : ℕ} (hk : k < nc) (hm : m < upc) :
    (genClusters nc upc center noise).flatten[k * upc + m]?
      = some ((center k).1 + (noise k m).1, (center k).2 + (noise k m).2) := by
  rw [flatten_getElem_uniform upc _ k m (fun row hrow => genClusters_mem_length hrow)
    (by rw [genClusters_length]; exact hk) hm]
  rw [genClusters_getElem center noise hk]
  simp [Option.bind, List.getElem?_map, List.getElem?_range hm]

lemma genClusters_ne_nil {nc upc : ℕ} (hnc : 0 < nc) (center : ℕ → Pt)
    (noise : ℕ → ℕ → Pt) : genClusters nc upc center noise ≠ [] := by
  intro h
  have := genClusters_length nc upc center noise
  rw [h] at this
  simp at this
  omega

lemma vstack_of_ne_nil {L : List (List Pt)} (h : L ≠ []) :
    vstack L = some L.flatten := by
  cases L with
  | nil => exact absurd rfl h
  | cons c rest => rfl

/-! ## Helper lemmas: normalization -/

lemma gridVals_map (n : ℕ) (f : ℕ → ℕ → ℝ) (g : ℝ → ℝ) :
    gridVals n (fun i j => g (f i j)) = (gridVals n f).map g := by
  simp [gridVals, List.map_flatMap, List.map_map, Function.comp_def]

lemma normField_max_eq_one {units : List Pt} (h : units ≠ []) (σ : ℝ)
    {n : ℕ} (hn : 0 < n) :
    listMax (gridVals n (normField units σ n)) = 1 := by
  have hM : 0 < fieldMax units σ n := fieldMax_pos h σ hn
  have : gridVals n (normField units σ n)
      = (gridVals n (field units σ n)).map fun x => x / fieldMax units σ n :=
    gridVals_map n (field units σ n) (fun x => x / fieldMax units σ n)
  rw [this, listMax_map_div _ _ hM.le, ← fieldMax, div_self hM.ne']

lemma normField_nonneg {units : List Pt} (h : units ≠ []) (σ : ℝ) {n : ℕ}
    (hn : 0 < n) (i j : ℕ) : 0 ≤ normField units σ n i j :=
  div_nonneg (fieldAcc_pos σ h _ _ i j).le (fieldMax_pos h σ hn).le

lemma normField_le_one {units : List Pt} (h : units ≠ []) (σ : ℝ) {n : ℕ}
    (hn : 0 < n) {i j : ℕ} (hi : i < n) (hj : j < n) :
    normField units σ n i j ≤ 1 :=
  (div_le_one (fieldMax_pos h σ hn)).mpr (field_le_fieldMax units σ hi hj)

/-! ## Helper lemmas: `np.linspace` -/

lemma linspace_zero (a b : ℝ) (n : ℕ) : linspace a b n 0 = a := by
  simp [linspace]

lemma linspace_last (a b : ℝ) {n : ℕ} (hn : 2 ≤ n) :
    linspace a b n (n - 1) = b := by
  have h1 : (1 : ℕ) ≤ n := le_trans (by norm_num) hn
  have hne : (n : ℝ) - 1 ≠ 0 := by
    have : (2 : ℝ) ≤ (n : ℝ) := by exact_mod_cast hn
    linarith
  rw [linspace, Nat.cast_sub h1, Nat.cast_one]
  field_simp

lemma linspace_step (a b : ℝ) (n : ℕ) (i : ℕ) :
    linspace a b n (i + 1) - linspace a b n i = (b - a) / ((n : ℝ) - 1) := by
  rw [linspace, linspace]
  push_cast
  ring

/-! ## Concrete random streams used by the witnesses -/

/-- A constant stream of uniform draws, for concrete instantiations. -/
def constCenter : ℕ → Pt := fun _ => (0, 0)

/-- A constant stream of normal draws, for concrete instantiations. -/
def constNoise : ℕ → ℕ → Pt := fun _ _ => (0, 0)

/-! ## Claims -/

/-- **C1.** For every unit collection and every positive sigma, the
accumulated field (before normalization) equals, at each grid point `(i, j)`,
the sum over all units `(ux, uy)` of
`exp(-((X[i,j]-ux)^2 + (Y[i,j]-uy)^2) / (2*sigma^2))`, starting from a zero
field shaped like `X`. -/
theorem C1_field_accumulation (units : List Pt) (σ : ℝ) (hσ : 0 < σ)
    (n i j : ℕ) :
    field units σ n i j
      = (units.map fun u => Real.exp (-((Xg units n i j - u.1) ^ 2
          + (Yg units n i j - u.2) ^ 2) / (2 * σ ^ 2))).sum := by
  rw [field, fieldAcc_eq_sum]
  rfl

/-- Witness for C1 at `units = [(0,0)]`, `σ = 1`, `n = 1`, `(i,j) = (0,0)`. -/
theorem C1_field_accumulation_witness :
    field [((0 : ℝ), (0 : ℝ))] 1 1 0 0
      = ([((0 : ℝ), (0 : ℝ))].map fun u =>
          Real.exp (-((Xg [((0 : ℝ), (0 : ℝ))] 1 0 0 - u.1) ^ 2
            + (Yg [((0 : ℝ), (0 : ℝ))] 1 0 0 - u.2) ^ 2) / (2 * 1 ^ 2))).sum :=
  C1_field_accumulation [((0 : ℝ), (0 : ℝ))] 1 one_pos 1 0 0

/-- **C2.** For every unit collection with at least one unit and every
positive (finite) sigma, after normalization the field's maximum is exactly 1
and every field value lies in `[0, 1]`. -/
theorem C2_normalized_max_and_range (units : List Pt) (σ : ℝ) (n i j : ℕ)
    (h1 : units ≠ []) (h2 : 0 < σ) (h3 : 0 < n) (hi : i < n) (hj : j < n) :
    listMax (gridVals n (normField units σ n)) = 1
      ∧ 0 ≤ normField units σ n i j ∧ normField units σ n i j ≤ 1 :=
  ⟨normField_max_eq_one h1 σ h3, normField_nonneg h1 σ h3 i j,
    normField_le_one h1 σ h3 hi hj⟩

/-- Witness for C2 at `units = [(0,0)]`, `σ = 1`, `n = 1`, `(i,j) = (0,0)`. -/
theorem C2_normalized_max_and_range_witness :
    listMax (gridVals 1 (normField [((0 : ℝ), (0 : ℝ))] 1 1)) = 1
      ∧ 0 ≤ normField [((0 : ℝ), (0 : ℝ))] 1 1 0 0
      ∧ normField [((0 : ℝ), (0 : ℝ))] 1 1 0 0 ≤ 1 :=
  C2_normalized_max_and_range [((0 : ℝ), (0 : ℝ))] 1 1 0 0
    (List.cons_ne_nil _ _) one_pos Nat.one_pos Nat.one_pos Nat.one_pos

/-- **C3.** For every non-empty unit collection, the grid bounds per axis
equal the per-axis minimum of the units minus the margin and the per-axis
maximum plus the margin, and each axis carries `grid_res` evenly spaced
samples between these bounds inclusive: the first sample equals the lower
bound, the last equals the upper bound, and consecutive samples differ by the
constant step `(upper - lower)/(grid_res - 1)`. -/
theorem C3_grid_bounds_and_spacing (units : List Pt) (n : ℕ)
    (h1 : units ≠ []) (h2 : 2 ≤ n) :
    xmin units = listMin (xcoords units) - margin
    ∧ xmax units = listMax (xcoords units) + margin
    ∧ ymin units = listMin (ycoords units) - margin
    ∧ ymax units = listMax (ycoords units) + margin
    ∧ xsamples units n 0 = xmin units
    ∧ xsamples units n (n - 1) = xmax units
    ∧ ysamples units n 0 = ymin units
    ∧ ysamples units n (n - 1) = ymax units
    ∧ (∀ i, xsamples units n (i + 1) - xsamples units n i
        = (xmax units - xmin units) / ((n : ℝ) - 1))
    ∧ (∀ i, ysamples units n (i + 1) - ysamples units n i
        = (ymax units - ymin units) / ((n : ℝ) - 1)) :=
  ⟨rfl, rfl, rfl, rfl,
    linspace_zero _ _ n, linspace_last _ _ h2,
    linspace_zero _ _ n, linspace_last _ _ h2,
    fun i => linspace_step _ _ n i, fun i => linspace_step _ _ n i⟩

/-- Witness for C3 at `units = [(0,0)]`, `n = 2`. -/
theorem C3_grid_bounds_and_spacing_witness :
    xmin [((0 : ℝ), (0 : ℝ))] = listMin (xcoords [((0 : ℝ), (0 : ℝ))]) - margin
    ∧ xmax [((0 : ℝ), (0 : ℝ))] = listMax (xcoords [((0 : ℝ), (0 : ℝ))]) + margin
    ∧ ymin [((0 : ℝ), (0 : ℝ))] = listMin (ycoords [((0 : ℝ), (0 : ℝ))]) - margin
    ∧ ymax [((0 : ℝ), (0 : ℝ))] = listMax (ycoords [((0 : ℝ), (0 : ℝ))]) + margin
    ∧ xsamples [((0 : ℝ), (0 : ℝ))] 2 0 = xmin [((0 : ℝ), (0 : ℝ))]
    ∧ xsamples [((0 : ℝ), (0 : ℝ))] 2 (2 - 1) = xmax [((0 : ℝ), (0 : ℝ))]
    ∧ ysamples [((0 : ℝ), (0 : ℝ))] 2 0 = ymin [((0 : ℝ), (0 : ℝ))]
    ∧ ysamples [((0 : ℝ), (0 : ℝ))] 2 (2 - 1) = ymax [((0 : ℝ), (0 : ℝ))]
    ∧ (∀ i, xsamples [((0 : ℝ), (0 : ℝ))] 2 (i + 1)
          - xsamples [((0 : ℝ), (0 : ℝ))] 2 i
        = (xmax [((0 : ℝ), (0 : ℝ))] - xmin [((0 : ℝ), (0 : ℝ))]) / ((2 : ℝ) - 1))
    ∧ (∀ i, ysamples [((0 : ℝ), (0 : ℝ))] 2 (i + 1)
          - ysamples [((0 : ℝ), (0 : ℝ))] 2 i
        = (ymax [((0 : ℝ), (0 : ℝ))] - ymin [((0 : ℝ), (0 : ℝ))]) / ((2 : ℝ) - 1)) := by
  have h := C3_grid_bounds_and_spacing [((0 : ℝ), (0 : ℝ))] 2
    (List.cons_ne_nil _ _) (le_refl 2)
  exact_mod_cast h

/-- **C4.** For every positive `num_clusters` and positive
`units_per_cluster`, the generated unit collection contains exactly
`num_clusters * units_per_cluster` 2D points, ordered cluster-major: the
point at flat index `k * units_per_cluster + m` is the `m`-th point of
cluster `k`, namely `center k + noise k m`. -/
theorem C4_unit_count_and_order (nc upc : ℕ) (hnc : 0 < nc) (hupc : 0 < upc)
    (center : ℕ → Pt) (noise : ℕ → ℕ → Pt) (k m : ℕ)
    (hk : k < nc) (hm : m < upc) :
    ∃ us, genUnits nc upc center noise = some us
      ∧ us.length = nc * upc
      ∧ us[k * upc + m]?
          = some ((center k).1 + (noise k m).1, (center k).2 + (noise k m).2) := by
  refine ⟨(genClusters nc upc center noise).flatten, ?_, ?_, ?_⟩
  · rw [genUnits, vstack_of_ne_nil (genClusters_ne_nil hnc center noise)]
  · exact genClusters_flatten_length nc upc center noise
  · exact genClusters_flatten_getElem center noise hk hm

/-- Witness for C4 at `nc = upc = 1`, constant random streams,
`(k, m) = (0, 0)`. -/
theorem C4_unit_count_and_order_witness :
    ∃ us, genUnits 1 1 constCenter constNoise = some us
      ∧ us.length = 1 * 1
      ∧ us[0 * 1 + 0]?
          = some ((constCenter 0).1 + (constNoise 0 0).1,
              (constCenter 0).2 + (constNoise 0 0).2) :=
  C4_unit_count_and_order 1 1 Nat.one_pos Nat.one_pos constCenter constNoise
    0 0 Nat.one_pos Nat.one_pos

/-- **C5.** The grid builder's meshgrid outputs satisfy
`X[i,j] = x[j]` and `Y[i,j] = y[i]` for all indices `(i, j)` of the
`grid_res × grid_res` grid, and every combination of an x-axis sample with a
y-axis sample appears at some grid cell. -/
theorem C5_meshgrid_combinations (units : List Pt) (n i j : ℕ)
    (hi : i < n) (hj : j < n) :
    Xg units n i j = xsamples units n j
    ∧ Yg units n i j = ysamples units n i
    ∧ ∀ a b, a < n → b < n → ∃ i2 j2, i2 < n ∧ j2 < n
        ∧ Xg units n i2 j2 = xsamples units n a
        ∧ Yg units n i2 j2 = ysamples units n b :=
  ⟨rfl, rfl, fun a b ha hb => ⟨b, a, hb, ha, rfl, rfl⟩⟩

/-- Witness for C5 at `units = [(0,0)]`, `n = 1`, `(i,j) = (0,0)`. -/
theorem C5_meshgrid_combinations_witness :
    Xg [((0 : ℝ), (0 : ℝ))] 1 0 0 = xsamples [((0 : ℝ), (0 : ℝ))] 1 0
    ∧ Yg [((0 : ℝ), (0 : ℝ))] 1 0 0 = ysamples [((0 : ℝ), (0 : ℝ))] 1 0
    ∧ ∀ a b, a < 1 → b < 1 → ∃ i2 j2, i2 < 1 ∧ j2 < 1
        ∧ Xg [((0 : ℝ), (0 : ℝ))] 1 i2 j2 = xsamples [((0 : ℝ), (0 : ℝ))] 1 a
        ∧ Yg [((0 : ℝ), (0 : ℝ))] 1 i2 j2 = ysamples [((0 : ℝ), (0 : ℝ))] 1 b :=
  C5_meshgrid_combinations [((0 : ℝ), (0 : ℝ))] 1 0 0 Nat.one_pos Nat.one_pos

/-- **C6.** If the accumulated field is identically zero (e.g. no units),
then its maximum is zero and the unguarded normalization `field /= field.max()`
divides by zero: with numpy float semantics every grid value becomes NaN
(modelled by `none`), propagated onward rather than raising an error. -/
theorem C6_zero_field_nan (units : List Pt) (σ : ℝ) (n : ℕ) (h3 : 0 < n)
    (h : ∀ i j, field units σ n i j = 0) :
    fieldMax units σ n = 0 ∧ ∀ i j, normFieldF units σ n i j = none := by
  have hM : fieldMax units σ n = 0 := by
    rcases gridVals_shape n (field units σ n)
        (listMax_mem (gridVals_ne_nil h3 (field units σ n))) with
      ⟨i, j, _, _, heq⟩
    rw [fieldMax, heq, h i j]
  exact ⟨hM, fun i j => by simp [normFieldF, floatDiv, hM]⟩

/-- Witness for C6 at `units = []`, `σ = 1`, `n = 1`: the empty unit
collection makes the accumulated field identically zero. -/
theorem C6_zero_field_nan_witness :
    fieldMax [] 1 1 = 0 ∧ ∀ i j, normFieldF [] 1 1 i j = none :=
  C6_zero_field_nan [] 1 1 Nat.one_pos (fun _ _ => rfl)

/-- **C7 counterexample.** With `num_clusters = 0` (and
`units_per_cluster = 1`), the generation loop appends nothing and
`np.vstack([])` raises `ValueError: need at least one array to concatenate`
(modelled by `none`): the cluster generator does fail in the generation
stage, contradicting the claim that zero counts never fail there. -/
theorem C7_zero_clusters_fails :
    genUnits 0 1 constCenter constNoise = none := rfl

/-- **C7 (amended).** Zero `units_per_cluster` (with positive
`num_clusters`) does not fail and yields an empty unit collection; but zero
`num_clusters` makes `np.vstack` of an empty list fail in the generation
stage. -/
theorem C7_degenerate_counts (nc upc : ℕ) (hnc : 0 < nc)
    (center : ℕ → Pt) (noise : ℕ → ℕ → Pt) :
    genUnits nc 0 center noise = some []
      ∧ genUnits 0 upc center noise = none := by
  constructor
  · rw [genUnits, vstack_of_ne_nil (genClusters_ne_nil hnc center noise)]
    simp [genClusters]
  · rw [genUnits]
    have h : genClusters 0 upc center noise = [] := by simp [genClusters]
    rw [h]
    rfl

/-- Witness for the amended C7 at `nc = 1`, `upc = 1`, constant streams. -/
theorem C7_degenerate_counts_witness :
    genUnits 1 0 constCenter constNoise = some []
      ∧ genUnits 0 1 constCenter constNoise = none :=
  C7_degenerate_counts 1 1 Nat.one_pos constCenter constNoise

/-- **C8.** For fixed parameters, two runs of the pipeline fed by the same
random stream (as produced by seeding the global generator with the same
seed) yield identical unit coordinates and identical field values. -/
theorem C8_determinism (nc upc : ℕ) (σ : ℝ) (n : ℕ)
    (center1 center2 : ℕ → Pt) (noise1 noise2 : ℕ → ℕ → Pt)
    (hc : center1 = center2) (hn : noise1 = noise2) :
    pipeline nc upc σ n center1 noise1 = pipeline nc upc σ n center2 noise2 := by
  rw [hc, hn]

/-- Witness for C8 at `nc = upc = n = 1`, `σ = 1`, constant streams. -/
theorem C8_determinism_witness :
    pipeline 1 1 1 1 constCenter constNoise
      = pipeline 1 1 1 1 constCenter constNoise :=
  C8_determinism 1 1 1 1 constCenter constCenter constNoise constNoise rfl rfl

/-- **C9.** In the single-unit scenario (`num_clusters = 1`,
`units_per_cluster = 1`, `sigma = 15`, `grid_res = 10`), the accumulated
field is exactly the one Gaussian kernel `exp(-d^2/(2*15^2))`, the
normalized field is that kernel divided by its own grid maximum, and the
normalized field's maximum is exactly 1. -/
theorem C9_single_unit_scenario (ux uy : ℝ) :
    (∀ i j, field [(ux, uy)] 15 10 i j
        = Real.exp (-((Xg [(ux, uy)] 10 i j - ux) ^ 2
            + (Yg [(ux, uy)] 10 i j - uy) ^ 2) / (2 * 15 ^ 2)))
      ∧ (∀ i j, normField [(ux, uy)] 15 10 i j
          = field [(ux, uy)] 15 10 i j / fieldMax [(ux, uy)] 15 10)
      ∧ listMax (gridVals 10 (normField [(ux, uy)] 15 10)) = 1 := by
  refine ⟨fun i j => ?_, fun i j => rfl,
    normField_max_eq_one (List.cons_ne_nil _ _) 15 (by norm_num)⟩
  rw [field, fieldAcc_eq_sum]
  simp [gauss]

/-- **C10.** For every unit collection with at least one unit and every
positive finite sigma, in exact real arithmetic the accumulated field is
strictly positive at every grid point, hence the divisor `field.max()` is
nonzero and the division-by-zero (NaN) branch of the normalization is
unreachable: the float division returns the real quotient. -/
theorem C10_divisor_nonzero (units : List Pt) (σ : ℝ) (n : ℕ)
    (h1 : units ≠ []) (h2 : 0 < σ) (h3 : 0 < n) (i j : ℕ) :
    0 < field units σ n i j
      ∧ fieldMax units σ n ≠ 0
      ∧ normFieldF units σ n i j = some (normField units σ n i j) := by
  have hM := fieldMax_pos h1 σ h3
  exact ⟨fieldAcc_pos σ h1 _ _ i j, hM.ne',
    by simp [normFieldF, floatDiv, hM.ne', normField]⟩

/-- Witness for C10 at `units = [(0,0)]`, `σ = 1`, `n = 1`, `(i,j)=(0,0)`. -/
theorem C10_divisor_nonzero_witness :
    0 < field [((0 : ℝ), (0 : ℝ))] 1 1 0 0
      ∧ fieldMax [((0 : ℝ), (0 : ℝ))] 1 1 ≠ 0
      ∧ normFieldF [((0 : ℝ), (0 : ℝ))] 1 1 0 0
          = some (normField [((0 : ℝ), (0 : ℝ))] 1 1 0 0) :=
  C10_divisor_nonzero [((0 : ℝ), (0 : ℝ))] 1 1
    (List.cons_ne_nil _ _) one_pos Nat.one_pos 0 0

end Blob
